import Mathlib

/-!
Shallow embedding of the nitrocli auxiliary scripts:

* `BinarySize` embeds `var/binary-size.py`, the concurrent binary-size
  measurement tool (unit table, revision resolver, workspace builder,
  orchestrator `main`, reporter).  External collaborators (git, cargo,
  strip, stat) are modelled as oracles whose per-call outcomes are
  parameters, so theorems quantify over every possible success/failure
  pattern of the external tools.  Worker completion timing of the thread
  pool is modelled by an explicit completion order, a permutation of the
  task indices.
* `VarTest` embeds `src/tests/extension_var_test.py`, the
  environment-echo test helper.
* `ModelTest` embeds `src/tests/extension_model_test.py`, the
  command-line-echo test helper.
-/

/-- Decidable equality for fallible results, so that witnesses can be
checked by evaluation. -/
instance {ε α : Type} [DecidableEq ε] [DecidableEq α] : DecidableEq (Except ε α) := fun x y =>
  match x, y with
  | Except.ok a, Except.ok b =>
    if h : a = b then isTrue (by rw [h]) else isFalse (fun he => h (Except.ok.inj he))
  | Except.error a, Except.error b =>
    if h : a = b then isTrue (by rw [h]) else isFalse (fun he => h (Except.error.inj he))
  | Except.ok _, Except.error _ => isFalse (fun he => Except.noConfusion he)
  | Except.error _, Except.ok _ => isFalse (fun he => Except.noConfusion he)

namespace BinarySize

/-- Kinds of objects stored in a git repository; a tag object carries the
name of the object it points at. -/
inductive ObjKind where
  | commit
  | tree
  | blob
  | tag (target : String)
deriving DecidableEq

/-- Model of the repository metadata read by `git rev-parse`.  For a
textual reference, `refs` lists the names of the objects it matches (empty
for a nonexistent reference, two or more for an ambiguous one); `objs`
gives each object's kind. -/
structure Repo where
  refs : String → List String
  objs : String → Option ObjKind

/-- Look a reference up in the repository; git refuses nonexistent and
ambiguous references, so exactly one matching object is required. -/
def lookupRef (r : Repo) (rev : String) : Option String :=
  match r.refs rev with
  | [sha] => some sha
  | _ => none

/-- Peel an object down to a commit, following tag objects (bounded by
`fuel` to keep the recursion well-founded on cyclic tag graphs).  Returns
`none` when the chain does not end in a commit object. -/
def peel (r : Repo) : Nat → String → Option String
  | 0, _ => none
  | fuel + 1, sha =>
    match r.objs sha with
    | some ObjKind.commit => some sha
    | some (ObjKind.tag t) => peel r fuel t
    | _ => none

/-- Behaviour of the external command `git rev-parse --verify <rev>` with
the rev suffixed by the commit-peeling operator, as the source's
`resolveCommit` invokes it: resolve the reference to a single object and
peel it to a commit, failing otherwise. -/
def revParseVerifyCommit (r : Repo) (fuel : Nat) (rev : String) : Option String :=
  match lookupRef r rev with
  | some sha => peel r fuel sha
  | none => none

/-- Embeds `resolveCommit`: resolve a commit reference into a SHA1 hash,
or fail (a `check_output` failure) when git cannot produce one. -/
def resolveCommit (r : Repo) (fuel : Nat) (rev : String) : Except String String :=
  match revParseVerifyCommit r fuel rev with
  | some sha => Except.ok sha
  | none => Except.error "fatal: needed a single revision"

/-- A reference designates a commit when git's resolution yields that
object and the object is a commit. -/
def designatesCommit (r : Repo) (fuel : Nat) (rev : String) (sha : String) : Prop :=
  revParseVerifyCommit r fuel rev = some sha ∧ r.objs sha = some ObjKind.commit

/-- State-passing wrapper of `resolveCommit`: `git rev-parse` only reads
repository metadata, so the repository state is returned unchanged. -/
def resolveCommitRun (r : Repo) (fuel : Nat) (rev : String) :
    Except String String × Repo :=
  (resolveCommit r fuel rev, r)

/-- Per-revision failures, one constructor per failing pipeline step. -/
inductive BuildErr where
  | unresolvable (msg : String)
  | cloneFailure (msg : String)
  | checkoutFailure (msg : String)
  | buildFailure (msg : String)
  | metadataFailure (msg : String)
  | stripFailure (msg : String)
  | artifactMissing (msg : String)
deriving DecidableEq

/-- Observable events of a run: subprocess invocations, workspace
lifecycle, task completion, and printed report lines. -/
inductive Event where
  | resolveRev (rev : String)
  | createWorkspace (ws : Nat)
  | cloneRepo (ws : Nat)
  | checkoutRev (ws : Nat) (sha : String)
  | cargoBuild (ws : Nat)
  | cargoMetadata (ws : Nat)
  | stripBinary (path : String)
  | statFile (path : String)
  | removeWorkspace (ws : Nat)
  | taskDone (idx : Nat)
  | printLine (value : Int)
deriving DecidableEq

/-- Event is a resolve invocation. -/
def Event.isResolve : Event → Bool
  | Event.resolveRev _ => true
  | _ => false

/-- Event is build activity for a revision: workspace creation, clone,
checkout, or release build. -/
def Event.isBuildActivity : Event → Bool
  | Event.createWorkspace _ => true
  | Event.cloneRepo _ => true
  | Event.checkoutRev _ _ => true
  | Event.cargoBuild _ => true
  | _ => false

/-- Event is a task completion. -/
def Event.isDone : Event → Bool
  | Event.taskDone _ => true
  | _ => false

/-- Event is a printed report line. -/
def Event.isPrint : Event → Bool
  | Event.printLine _ => true
  | _ => false

/-- Filesystem state tracked by the model: the next fresh temporary
directory name and the set of temporary directories currently existing. -/
structure FsState where
  nextWs : Nat
  live : List Nat
deriving DecidableEq

/-- Oracle fixing the outcome of every external-tool invocation: the git
repository metadata, whether `git clone` of the root succeeds, and the
outcomes of checkout, `cargo build`, `cargo metadata` (the target
directory), `strip`, and `stat`, keyed by the data the source passes to
each tool. -/
structure Oracle where
  repo : Repo
  fuel : Nat
  cloneRes : Except String Unit
  checkoutRes : String → Except String Unit
  buildRes : String → Except String Unit
  metaRes : String → Except String String
  stripRes : String → Except String Unit
  statRes : String → Except String Nat

/-- Embeds `nitrocliPath`: join the target directory reported by
`cargo metadata` with the release binary's relative path. -/
def nitrocliPath (targetDir : String) : String :=
  targetDir ++ "/release/nitrocli"

/-- Body of the `with TemporaryDirectory()` block of `determineSizeAt`:
clone, checkout, build, locate the artifact, strip it, stat it.  Returns
the outcome together with the subprocess events that ran, stopping at the
first failing step exactly as a raised `CalledProcessError` would. -/
def buildBody (o : Oracle) (sha : String) (ws : Nat) :
    Except BuildErr Nat × List Event :=
  match o.cloneRes with
  | Except.error e => (Except.error (BuildErr.cloneFailure e), [Event.cloneRepo ws])
  | Except.ok _ =>
    match o.checkoutRes sha with
    | Except.error e =>
      (Except.error (BuildErr.checkoutFailure e),
       [Event.cloneRepo ws, Event.checkoutRev ws sha])
    | Except.ok _ =>
      match o.buildRes sha with
      | Except.error e =>
        (Except.error (BuildErr.buildFailure e),
         [Event.cloneRepo ws, Event.checkoutRev ws sha, Event.cargoBuild ws])
      | Except.ok _ =>
        match o.metaRes sha with
        | Except.error e =>
          (Except.error (BuildErr.metadataFailure e),
           [Event.cloneRepo ws, Event.checkoutRev ws sha, Event.cargoBuild ws,
            Event.cargoMetadata ws])
        | Except.ok dir =>
          match o.stripRes (nitrocliPath dir) with
          | Except.error e =>
            (Except.error (BuildErr.stripFailure e),
             [Event.cloneRepo ws, Event.checkoutRev ws sha, Event.cargoBuild ws,
              Event.cargoMetadata ws, Event.stripBinary (nitrocliPath dir)])
          | Except.ok _ =>
            match o.statRes (nitrocliPath dir) with
            | Except.error e =>
              (Except.error (BuildErr.artifactMissing e),
               [Event.cloneRepo ws, Event.checkoutRev ws sha, Event.cargoBuild ws,
                Event.cargoMetadata ws, Event.stripBinary (nitrocliPath dir),
                Event.statFile (nitrocliPath dir)])
            | Except.ok n =>
              (Except.ok n,
               [Event.cloneRepo ws, Event.checkoutRev ws sha, Event.cargoBuild ws,
                Event.cargoMetadata ws, Event.stripBinary (nitrocliPath dir),
                Event.statFile (nitrocliPath dir)])

/-- Embeds `determineSizeAt`: resolve the revision, then inside a fresh
scoped temporary workspace run the build body; the workspace is created
before the body and removed afterwards on every path, exactly as the
`with TemporaryDirectory()` context manager guarantees.  Returns the
outcome, the filesystem state after the call, and the event trace. -/
def determineSizeAt (o : Oracle) (rev : String) (st : FsState) :
    Except BuildErr Nat × FsState × List Event :=
  match resolveCommit o.repo o.fuel rev with
  | Except.error e => (Except.error (BuildErr.unresolvable e), st, [Event.resolveRev rev])
  | Except.ok sha =>
    let ws := st.nextWs
    let body := buildBody o sha ws
    (body.1, ⟨st.nextWs + 1, (ws :: st.live).erase ws⟩,
     Event.resolveRev rev :: Event.createWorkspace ws :: (body.2 ++ [Event.removeWorkspace ws]))

/-- Value computed for one revision by its task, independent of
scheduling and filesystem state: resolve, then the build-body outcome. -/
def measureRev (o : Oracle) (rev : String) : Except BuildErr Nat :=
  match resolveCommit o.repo o.fuel rev with
  | Except.error e => Except.error (BuildErr.unresolvable e)
  | Except.ok sha => (buildBody o sha 0).1

/-- Embeds the UNITS table: unit name to byte-scaling divisor. -/
def UNITS : List (String × Nat) :=
  [("byte", 1), ("kib", 1024), ("mib", 1024 * 1024)]

/-- Embeds `unit`: look the name up in UNITS, or raise
`ArgumentTypeError` for an unrecognized name. -/
def unit (s : String) : Except String Nat :=
  match UNITS.lookup s with
  | some u => Except.ok u
  | none => Except.error ("Invalid unit: " ++ s ++ ".")

/-- Python's builtin `round` to zero decimal places on an exact rational:
round to the nearest integer, ties to the even integer.  The source feeds
it `size / unit` where every unit divisor is a power of two and sizes are
far below 2^53, so the float division in the source is exact and this
rational model coincides with it. -/
def pyRound (q : ℚ) : ℤ :=
  if q - ⌊q⌋ < 1 / 2 then ⌊q⌋
  else if 1 / 2 < q - ⌊q⌋ then ⌊q⌋ + 1
  else if ⌊q⌋ % 2 = 0 then ⌊q⌋ else ⌊q⌋ + 1

/-- Number printed for a successful measurement of `B` bytes at unit
divisor `u`: the source's `int(round(B / u, 0))`. -/
def reported (B : Nat) (u : Nat) : ℤ :=
  pyRound ((B : ℚ) / (u : ℚ))

/-- Executor model: run the submitted tasks in the given completion order
(each task atomically, since tasks share no mutable state), storing each
task's outcome in its originating future slot.  Mirrors the submission
loop plus `executor.shutdown(wait=True)` of `main`. -/
def runAll (o : Oracle) (revs : List String) :
    List Nat → FsState → (Nat → Option (Except BuildErr Nat)) →
    (Nat → Option (Except BuildErr Nat)) × FsState × List Event
  | [], st, acc => (acc, st, [])
  | i :: rest, st, acc =>
    match revs.get? i with
    | none => runAll o revs rest st acc
    | some rev =>
      let r := determineSizeAt o rev st
      let k := runAll o revs rest r.2.1 (fun j => if j = i then some r.1 else acc j)
      (k.1, k.2.1, (r.2.2 ++ [Event.taskDone i]) ++ k.2.2)

/-- Outcomes held by the futures list after the executor has shut down,
in submission order. -/
def futuresOf (o : Oracle) (revs : List String) (π : List Nat) (st : FsState) :
    List (Option (Except BuildErr Nat)) :=
  (List.range revs.length).map (fun i => (runAll o revs π st (fun _ => none)).1 i)

/-- Embeds the reporting loop of `main`: `future.result()` in submission
order, printing the converted size of each successful result; the first
failed future re-raises its exception, aborting the loop. -/
def printLoop (u : Nat) : List (Except BuildErr Nat) → List Int × Option BuildErr
  | [] => ([], none)
  | Except.error e :: _ => ([], some e)
  | Except.ok n :: rest =>
    let p := printLoop u rest
    (reported n u :: p.1, p.2)

/-- Observable outcome of a `main` run after argument parsing: the lines
printed to standard output, the per-revision exception propagated out of
the reporting loop (if any), and the full event trace. -/
structure MainOut where
  lines : List Int
  err : Option BuildErr
  trace : List Event
deriving DecidableEq

/-- Body of `main` after successful argument parsing: submit one task per
revision, wait for all of them, then run the reporting loop over the
futures in submission order. -/
def mainCore (o : Oracle) (revs : List String) (u : Nat) (π : List Nat) (st : FsState) :
    MainOut :=
  let r := runAll o revs π st (fun _ => none)
  let fs := (List.range revs.length).map
    (fun i => (r.1 i).getD (Except.error (BuildErr.unresolvable "unfinished")))
  let p := printLoop u fs
  ⟨p.1, p.2, r.2.2 ++ p.1.map Event.printLine⟩

/-- Embeds `main`: argument parsing converts the unit name first (argparse
invokes the `unit` converter during `parse_args`, before any revision
work); an invalid unit aborts with an empty event trace, otherwise the
core runs. -/
def mainRun (o : Oracle) (revs : List String) (unitStr : String) (π : List Nat)
    (st : FsState) : Except String MainOut × List Event :=
  match unit unitStr with
  | Except.error e => (Except.error e, [])
  | Except.ok u =>
    let out := mainCore o revs u π st
    (Except.ok out, out.trace)

/-- Byte count stored in a successful measurement (0 for a failed one;
used only on successful slots). -/
def okValue : Except BuildErr Nat → Nat
  | Except.ok n => n
  | Except.error _ => 0

/-- First per-revision error encountered by the reporting loop, the
exception it propagates. -/
def firstError (l : List (Except BuildErr Nat)) : Option BuildErr :=
  match l.dropWhile Except.isOk with
  | Except.error e :: _ => some e
  | _ => none

/-- Concrete repository for witnesses: the reference HEAD designates the
single commit object cafe. -/
def sampleRepo : Repo :=
  ⟨fun rev => if rev = "HEAD" then ["cafe"] else [],
   fun sha => if sha = "cafe" then some ObjKind.commit else none⟩

/-- Concrete oracle for witnesses: every external step succeeds and the
stripped binary measures 123456 bytes. -/
def sampleOracle : Oracle :=
  ⟨sampleRepo, 4, Except.ok (), fun _ => Except.ok (), fun _ => Except.ok (),
   fun _ => Except.ok "target", fun _ => Except.ok (), fun _ => Except.ok 123456⟩

/-- Concrete oracle for failure scenarios: only the reference good
resolves (to the commit cafe); every later step succeeds and the binary
measures 2048 bytes. -/
def failOracle : Oracle :=
  ⟨⟨fun rev => if rev = "good" then ["cafe"] else [],
    fun sha => if sha = "cafe" then some ObjKind.commit else none⟩,
   4, Except.ok (), fun _ => Except.ok (), fun _ => Except.ok (),
   fun _ => Except.ok "target", fun _ => Except.ok (), fun _ => Except.ok 2048⟩

end BinarySize

namespace VarTest

/-- Embeds the Action enum of extension_var_test.py as its
`__members__` association of member name and member value, in definition
order. -/
def actionMembers : List (String × String) :=
  [("BINARY", "binary"), ("MODEL", "model"), ("NO_CACHE", "no-cache"),
   ("SERIAL_NUMBERS", "serial-numbers"), ("USB_PATH", "usb-path"),
   ("VERBOSITY", "verbosity")]

/-- The reverse mapping from member value to member name built by `main`
(`options` in the source). -/
def options : List (String × String) :=
  actionMembers.map (fun p => (p.2, p.1))

/-- The six valid action strings accepted by the positional argument. -/
inductive Action where
  | binary | model | noCache | serialNumbers | usbPath | verbosity
deriving DecidableEq

/-- Command-line value of each action. -/
def Action.value : Action → String
  | Action.binary => "binary"
  | Action.model => "model"
  | Action.noCache => "no-cache"
  | Action.serialNumbers => "serial-numbers"
  | Action.usbPath => "usb-path"
  | Action.verbosity => "verbosity"

/-- Embeds `main` of extension_var_test.py after argument parsing: map the
action value to its member name, read the environment variable
`NITROCLI_` + name, print its value and return 0, or print nothing and
return 1 when the variable is unset (the `KeyError` branch). -/
def mainVar (env : String → Option String) (what : String) : List String × Nat :=
  match options.lookup what with
  | none => ([], 1)
  | some var =>
    match env ("NITROCLI_" ++ var) with
    | none => ([], 1)
    | some v => ([v], 0)

/-- The variable name the claim describes: `NITROCLI_` followed by the
action uppercased with hyphens replaced by underscores. -/
def claimVarName (action : String) : String :=
  "NITROCLI_" ++ String.mk (action.toList.map
    (fun c => if c = '-' then '_' else c.toUpper))

/-- Member name of each action in the Action enum. -/
def Action.memberName : Action → String
  | Action.binary => "BINARY"
  | Action.model => "MODEL"
  | Action.noCache => "NO_CACHE"
  | Action.serialNumbers => "SERIAL_NUMBERS"
  | Action.usbPath => "USB_PATH"
  | Action.verbosity => "VERBOSITY"

/-- Concrete environment for witnesses: only NITROCLI_NO_CACHE is set. -/
def envSample (s : String) : Option String :=
  if s = "NITROCLI_NO_CACHE" then some "1" else none

end VarTest

namespace ModelTest

/-- The three valid action strings of extension_model_test.py. -/
inductive Action where
  | nitrocli | model | verbosity
deriving DecidableEq

/-- Command-line value of each action. -/
def Action.value : Action → String
  | Action.nitrocli => "nitrocli"
  | Action.model => "model"
  | Action.verbosity => "verbosity"

/-- Python `print` applied to an option value: the literal `None` when the
option was left at its default, the stored string otherwise. -/
def printOpt : Option String → String
  | none => "None"
  | some s => s

/-- Embeds `main` of extension_model_test.py after argument parsing: echo
the option matching the selected action (options not supplied on the
command line are `none`, argparse's default None). -/
def mainModel (what : String) (nitrocliOpt modelOpt verbosityOpt : Option String) :
    List String × Nat :=
  if what = Action.nitrocli.value then ([printOpt nitrocliOpt], 0)
  else if what = Action.model.value then ([printOpt modelOpt], 0)
  else if what = Action.verbosity.value then ([printOpt verbosityOpt], 0)
  else ([], 1)

end ModelTest

namespace BinarySize

theorem peel_commit (r : Repo) :
    ∀ (fuel : Nat) (sha out : String),
      peel r fuel sha = some out → r.objs out = some ObjKind.commit := by
  intro fuel
  induction fuel with
  | zero => intro sha out h; simp [peel] at h
  | succ n ih =>
    intro sha out h
    unfold peel at h
    cases hk : r.objs sha with
    | none => rw [hk] at h; exact Option.noConfusion h
    | some k =>
      rw [hk] at h
      cases k with
      | commit =>
        have : sha = out := Option.some.inj h
        rw [← this]; exact hk
      | tree => exact Option.noConfusion h
      | blob => exact Option.noConfusion h
      | tag t => exact ih t out h

theorem revParse_commit (r : Repo) (fuel : Nat) (rev sha : String)
    (h : revParseVerifyCommit r fuel rev = some sha) :
    r.objs sha = some ObjKind.commit := by
  unfold revParseVerifyCommit at h
  cases hl : lookupRef r rev with
  | none => rw [hl] at h; exact Option.noConfusion h
  | some s0 => rw [hl] at h; exact peel_commit r fuel s0 sha h

/-- C6: resolution fails exactly when the reference does not designate a
commit object in the repository, and a successful resolution always
returns a designated commit object, never an unrelated non-commit
object. -/
theorem resolveCommit_fails_iff (r : Repo) (fuel : Nat) (rev : String) :
    ((∃ e, resolveCommit r fuel rev = Except.error e) ↔
      ¬ ∃ sha, designatesCommit r fuel rev sha) ∧
    (∀ sha, resolveCommit r fuel rev = Except.ok sha →
      r.objs sha = some ObjKind.commit ∧ designatesCommit r fuel rev sha) := by
  cases h : revParseVerifyCommit r fuel rev with
  | none =>
    refine ⟨⟨fun _ => ?_, fun _ => ?_⟩, fun sha hok => ?_⟩
    · rintro ⟨sha, hd, _⟩
      rw [h] at hd
      exact Option.noConfusion hd
    · exact ⟨"fatal: needed a single revision", by simp [resolveCommit, h]⟩
    · simp [resolveCommit, h] at hok
  | some sha0 =>
    have hc : r.objs sha0 = some ObjKind.commit := revParse_commit r fuel rev sha0 h
    refine ⟨⟨fun he => ?_, fun hn => ?_⟩, fun sha hok => ?_⟩
    · rcases he with ⟨e, he⟩
      simp [resolveCommit, h] at he
    · exact absurd ⟨sha0, h, hc⟩ hn
    · have : sha0 = sha := by simpa [resolveCommit, h] using hok
      subst this
      exact ⟨hc, h, hc⟩

theorem resolveCommit_fails_iff_witness :
    sampleOracle.repo.objs "cafe" = some ObjKind.commit ∧
    designatesCommit sampleOracle.repo 4 "HEAD" "cafe" :=
  (resolveCommit_fails_iff sampleOracle.repo 4 "HEAD").2 "cafe" (by decide)

/-- C7: resolving the same revision reference twice against the same
repository state yields the same commit identifier, and the first run
leaves the repository state unchanged. -/
theorem resolveCommit_deterministic (r : Repo) (fuel : Nat) (rev : String) :
    (resolveCommitRun r fuel rev).1 =
      (resolveCommitRun (resolveCommitRun r fuel rev).2 fuel rev).1 ∧
    (resolveCommitRun (resolveCommitRun r fuel rev).2 fuel rev).2 = r :=
  ⟨rfl, rfl⟩

end BinarySize

namespace VarTest

/-- C9: for every valid action, the environment-echo helper prints the
value of NITROCLI_ followed by the action uppercased with hyphens
replaced by underscores and returns 0 when that variable is set, and
prints nothing and returns 1 when it is unset. -/
theorem claimVarName_eq (a : Action) :
    claimVarName a.value = "NITROCLI_" ++ a.memberName := by
  cases a <;> decide

theorem lookup_value_eq (a : Action) :
    options.lookup a.value = some a.memberName := by
  cases a <;> decide

theorem mainVar_env_echo (a : Action) (env : String → Option String) (v : String) :
    (env (claimVarName a.value) = some v → mainVar env a.value = ([v], 0)) ∧
    (env (claimVarName a.value) = none → mainVar env a.value = ([], 1)) := by
  refine ⟨fun h => ?_, fun h => ?_⟩ <;>
  · rw [claimVarName_eq] at h
    simp [mainVar, lookup_value_eq, h]

theorem mainVar_env_echo_witness :
    mainVar envSample "no-cache" = (["1"], 0) ∧
    mainVar (fun _ => none) "no-cache" = ([], 1) :=
  ⟨(mainVar_env_echo Action.noCache envSample "1").1 (by decide),
   (mainVar_env_echo Action.noCache (fun _ => none) "1").2 rfl⟩

end VarTest

namespace ModelTest

/-- C10: for every valid action of the command-line-echo helper, when the
correspondingly named option was not supplied on the command line the
helper prints the literal string None and returns exit code 0, whatever
the other options hold. -/
theorem mainModel_default_none (x y : Option String) :
    mainModel "nitrocli" none x y = (["None"], 0) ∧
    mainModel "model" x none y = (["None"], 0) ∧
    mainModel "verbosity" x y none = (["None"], 0) := by
  refine ⟨rfl, ?_, ?_⟩ <;> simp [mainModel, Action.value, printOpt]

end ModelTest

namespace BinarySize

theorem pyRound_dist (q : ℚ) : |(pyRound q : ℚ) - q| ≤ 1 / 2 := by
  have hf : (⌊q⌋ : ℚ) ≤ q := Int.floor_le q
  have hf2 : q < ⌊q⌋ + 1 := Int.lt_floor_add_one q
  unfold pyRound
  split_ifs with h1 h2 h3 <;> rw [abs_le] <;> push_cast <;> constructor <;> linarith

theorem pyRound_nearest (q : ℚ) (m : ℤ) :
    |(pyRound q : ℚ) - q| ≤ |(m : ℚ) - q| := by
  by_cases hm : m = pyRound q
  · rw [hm]
  · have h0 : (1 : ℤ) ≤ |m - pyRound q| := Int.one_le_abs (sub_ne_zero.mpr hm)
    have h1 : (1 : ℚ) ≤ |(m : ℚ) - (pyRound q : ℚ)| := by
      have hc : ((1 : ℤ) : ℚ) ≤ ((|m - pyRound q| : ℤ) : ℚ) := Int.cast_le.mpr h0
      push_cast at hc
      simpa using hc
    have h2 := pyRound_dist q
    have h3 : |(m : ℚ) - (pyRound q : ℚ)| ≤ |(m : ℚ) - q| + |q - (pyRound q : ℚ)| :=
      abs_sub_le _ q _
    rw [abs_sub_comm q] at h3
    linarith

/-- C3: for every valid unit name and every byte count, the reported
number is a nearest integer to the byte count divided by the unit's scale
factor (no integer is strictly closer); in particular a measured size of
123456 bytes at unit byte prints 123456. -/
theorem reported_nearest (s : String) (u B : Nat) (h : unit s = Except.ok u) (m : ℤ) :
    |(reported B u : ℚ) - (B : ℚ) / (u : ℚ)| ≤ |(m : ℚ) - (B : ℚ) / (u : ℚ)| ∧
    reported 123456 1 = 123456 := by
  refine ⟨pyRound_nearest _ m, ?_⟩
  unfold reported pyRound
  norm_num

theorem reported_nearest_witness :
    |(reported 123456 1 : ℚ) - ((123456 : Nat) : ℚ) / ((1 : Nat) : ℚ)| ≤
      |((123460 : ℤ) : ℚ) - ((123456 : Nat) : ℚ) / ((1 : Nat) : ℚ)| ∧
    reported 123456 1 = 123456 :=
  reported_nearest "byte" 1 123456 rfl 123460

theorem unit_invalid (s : String) (h : ¬(s = "byte" ∨ s = "kib" ∨ s = "mib")) :
    unit s = Except.error ("Invalid unit: " ++ s ++ ".") := by
  push_neg at h
  have hb : (s == "byte") = false := beq_eq_false_iff_ne.mpr h.1
  have hk : (s == "kib") = false := beq_eq_false_iff_ne.mpr h.2.1
  have hm : (s == "mib") = false := beq_eq_false_iff_ne.mpr h.2.2
  simp [unit, UNITS, List.lookup, hb, hk, hm]

theorem unit_pos (s : String) (u : Nat) (hu : unit s = Except.ok u) :
    0 < u ∧ (s = "byte" ∨ s = "kib" ∨ s = "mib") := by
  by_cases hb : s = "byte"
  · subst hb
    have h1 : (Except.ok 1 : Except String Nat) = Except.ok u := by rw [← hu]; rfl
    rw [← Except.ok.inj h1]
    exact ⟨Nat.one_pos, Or.inl rfl⟩
  · by_cases hk : s = "kib"
    · subst hk
      have h1 : (Except.ok 1024 : Except String Nat) = Except.ok u := by rw [← hu]; rfl
      rw [← Except.ok.inj h1]
      exact ⟨by norm_num, Or.inr (Or.inl rfl)⟩
    · by_cases hm : s = "mib"
      · subst hm
        have h1 : (Except.ok 1048576 : Except String Nat) = Except.ok u := by rw [← hu]; rfl
        rw [← Except.ok.inj h1]
        exact ⟨by norm_num, Or.inr (Or.inr rfl)⟩
      · rw [unit_invalid s (by tauto)] at hu
        exact Except.noConfusion hu

/-- C4: every unit name outside the recognized set makes the program fail
during argument parsing, before any revision work happens (the event
trace stays empty and no measurement runs), and every recognized unit
name maps to a positive scale factor. -/
theorem unit_validation (s : String) (o : Oracle) (revs : List String)
    (π : List Nat) (st : FsState) :
    (¬(s = "byte" ∨ s = "kib" ∨ s = "mib") →
      (mainRun o revs s π st).2 = [] ∧
      ∃ e, (mainRun o revs s π st).1 = Except.error e) ∧
    (∀ u, unit s = Except.ok u → 0 < u ∧ (s = "byte" ∨ s = "kib" ∨ s = "mib")) := by
  constructor
  · intro h
    have he := unit_invalid s h
    exact ⟨by simp [mainRun, he], ⟨"Invalid unit: " ++ s ++ ".", by simp [mainRun, he]⟩⟩
  · exact fun u hu => unit_pos s u hu

theorem unit_validation_witness :
    ((mainRun sampleOracle ["HEAD"] "gib" [0] ⟨0, []⟩).2 = [] ∧
      ∃ e, (mainRun sampleOracle ["HEAD"] "gib" [0] ⟨0, []⟩).1 = Except.error e) ∧
    (0 < 1024 ∧ ("kib" = "byte" ∨ "kib" = "kib" ∨ "kib" = "mib")) :=
  ⟨(unit_validation "gib" sampleOracle ["HEAD"] [0] ⟨0, []⟩).1 (by decide),
   (unit_validation "kib" sampleOracle ["HEAD"] [0] ⟨0, []⟩).2 1024 rfl⟩

theorem buildBody_events (o : Oracle) (sha : String) (ws : Nat) :
    ((buildBody o sha ws).2.countP Event.isResolve) = 0 ∧
    ((buildBody o sha ws).2.countP Event.isDone) = 0 ∧
    ((buildBody o sha ws).2.countP Event.isPrint) = 0 ∧
    ∀ w, Event.createWorkspace w ∉ (buildBody o sha ws).2 := by
  unfold buildBody
  repeat' split
  all_goals simp [Event.isResolve, Event.isDone, Event.isPrint]

theorem determineSizeAt_live (o : Oracle) (rev : String) (st : FsState) :
    ((determineSizeAt o rev st).2.1).live = st.live := by
  unfold determineSizeAt
  cases h : resolveCommit o.repo o.fuel rev with
  | error e => rfl
  | ok sha => simp [List.erase_cons_head]

/-- C5: whatever the outcome of every external step, the temporary
workspace created by a build attempt no longer exists when
determineSizeAt finishes: the set of live directories is unchanged, and
every workspace whose creation appears in the trace also has its removal
in the trace and is absent from the final live set. -/
theorem workspace_scoped (o : Oracle) (rev : String) (st : FsState)
    (hfresh : st.nextWs ∉ st.live) :
    ((determineSizeAt o rev st).2.1).live = st.live ∧
    ∀ ws, Event.createWorkspace ws ∈ (determineSizeAt o rev st).2.2 →
      Event.removeWorkspace ws ∈ (determineSizeAt o rev st).2.2 ∧
      ws ∉ ((determineSizeAt o rev st).2.1).live := by
  refine ⟨determineSizeAt_live o rev st, fun ws hmem => ?_⟩
  have hlive := determineSizeAt_live o rev st
  rw [hlive]
  unfold determineSizeAt at hmem ⊢
  cases h : resolveCommit o.repo o.fuel rev with
  | error e =>
    rw [h] at hmem
    simp at hmem
  | ok sha =>
    rw [h] at hmem
    have hnb := (buildBody_events o sha st.nextWs).2.2.2 ws
    simp only [List.mem_cons, List.mem_append, List.mem_singleton] at hmem
    rcases hmem with h1 | h1 | h1 | h1
    · exact absurd h1 (by simp)
    · have hws : ws = st.nextWs := by
        injection h1
      subst hws
      constructor
      · simp
      · exact hfresh
    · exact absurd h1 hnb
    · exact absurd h1 (by simp)

theorem workspace_scoped_witness :
    ((determineSizeAt sampleOracle "HEAD" ⟨0, []⟩).2.1).live = [] ∧
    (Event.removeWorkspace 0 ∈ (determineSizeAt sampleOracle "HEAD" ⟨0, []⟩).2.2 ∧
      0 ∉ ((determineSizeAt sampleOracle "HEAD" ⟨0, []⟩).2.1).live) :=
  ⟨(workspace_scoped sampleOracle "HEAD" ⟨0, []⟩ (by decide)).1,
   (workspace_scoped sampleOracle "HEAD" ⟨0, []⟩ (by decide)).2 0 (by decide)⟩

/-- C8: in every build attempt the revision is resolved at most once, and
every resolve event precedes the first build activity (workspace
creation, clone, checkout, or release build) in the event trace. -/
theorem resolve_once_before_build (o : Oracle) (rev : String) (st : FsState) :
    ((determineSizeAt o rev st).2.2.countP Event.isResolve) ≤ 1 ∧
    (((determineSizeAt o rev st).2.2.takeWhile (fun e => !e.isBuildActivity)).countP
        Event.isResolve) = ((determineSizeAt o rev st).2.2.countP Event.isResolve) := by
  unfold determineSizeAt
  cases h : resolveCommit o.repo o.fuel rev with
  | error e => simp [Event.isResolve, Event.isBuildActivity, List.takeWhile, List.countP, List.countP.go]
  | ok sha =>
    have h0 := (buildBody_events o sha st.nextWs).1
    constructor
    · simp [List.countP_cons, List.countP_append, Event.isResolve, h0]
    · simp [List.takeWhile, List.countP_cons, List.countP_append, Event.isResolve,
        Event.isBuildActivity, h0]

end BinarySize

namespace BinarySize

theorem buildBody_fst (o : Oracle) (sha : String) (ws w2 : Nat) :
    (buildBody o sha ws).1 = (buildBody o sha w2).1 := by
  unfold buildBody
  repeat' split
  all_goals simp_all

theorem determineSizeAt_fst (o : Oracle) (rev : String) (st : FsState) :
    (determineSizeAt o rev st).1 = measureRev o rev := by
  unfold determineSizeAt measureRev
  cases h : resolveCommit o.repo o.fuel rev with
  | error e => rfl
  | ok sha => simpa using buildBody_fst o sha st.nextWs 0

theorem runAll_not_mem (o : Oracle) (revs : List String) :
    ∀ (π : List Nat) (st : FsState) (acc : Nat → Option (Except BuildErr Nat)) (i : Nat),
      i ∉ π → (runAll o revs π st acc).1 i = acc i := by
  intro π
  induction π with
  | nil => intro st acc i _; rfl
  | cons j rest ih =>
    intro st acc i hi
    have hij : i ≠ j := fun e => hi (e ▸ List.mem_cons_self j rest)
    have hir : i ∉ rest := fun e => hi (List.mem_cons_of_mem j e)
    cases hg : revs.get? j with
    | none =>
      simp only [runAll, hg]
      exact ih st acc i hir
    | some rev =>
      simp only [runAll, hg]
      rw [ih _ _ i hir]
      simp [hij]

theorem runAll_mem (o : Oracle) (revs : List String) :
    ∀ (π : List Nat) (st : FsState) (acc : Nat → Option (Except BuildErr Nat))
      (i : Nat) (rev : String),
      π.Nodup → i ∈ π → revs.get? i = some rev →
      (runAll o revs π st acc).1 i = some (measureRev o rev) := by
  intro π
  induction π with
  | nil => intro st acc i rev _ hi _; exact absurd hi (List.not_mem_nil i)
  | cons j rest ih =>
    intro st acc i rev hnd hi hg
    rcases List.mem_cons.mp hi with hij | hir
    · subst hij
      have hjr : i ∉ rest := (List.nodup_cons.mp hnd).1
      simp only [runAll, hg]
      rw [runAll_not_mem o revs rest _ _ i hjr]
      simp [determineSizeAt_fst]
    · cases hg2 : revs.get? j with
      | none =>
        simp only [runAll, hg2]
        exact ih _ acc i rev (List.nodup_cons.mp hnd).2 hir hg
      | some rev2 =>
        simp only [runAll, hg2]
        exact ih _ _ i rev (List.nodup_cons.mp hnd).2 hir hg

theorem futuresOf_eq (o : Oracle) (revs : List String) (π : List Nat) (st : FsState)
    (hπ : π.Perm (List.range revs.length)) :
    futuresOf o revs π st = revs.map (fun r => some (measureRev o r)) := by
  have hnd : π.Nodup := (hπ.nodup_iff).mpr (List.nodup_range _)
  apply List.ext_getElem
  · simp [futuresOf]
  · intro i h1 h2
    have hi : i < revs.length := by simpa [futuresOf] using h1
    simp only [futuresOf, List.getElem_map, List.getElem_range]
    have hmem : i ∈ π := (hπ.mem_iff).mpr (List.mem_range.mpr hi)
    have hg : revs.get? i = some revs[i] := by
      rw [List.get?_eq_getElem?]
      exact List.getElem?_eq_getElem hi
    rw [runAll_mem o revs π st _ i revs[i] hnd hmem hg]

theorem determineSizeAt_trace_counts (o : Oracle) (rev : String) (st : FsState) :
    ((determineSizeAt o rev st).2.2.countP Event.isDone) = 0 ∧
    ((determineSizeAt o rev st).2.2.countP Event.isPrint) = 0 := by
  unfold determineSizeAt
  cases h : resolveCommit o.repo o.fuel rev with
  | error e => simp [Event.isDone, Event.isPrint, List.countP_cons, List.countP_nil]
  | ok sha =>
    have h1 := (buildBody_events o sha st.nextWs).2.1
    have h2 := (buildBody_events o sha st.nextWs).2.2.1
    simp [List.countP_cons, List.countP_append, Event.isDone, Event.isPrint, h1, h2]

theorem runAll_trace_counts (o : Oracle) (revs : List String) :
    ∀ (π : List Nat) (st : FsState) (acc : Nat → Option (Except BuildErr Nat)),
      ((runAll o revs π st acc).2.2.countP Event.isDone) =
        (π.countP (fun i => (revs.get? i).isSome)) ∧
      ((runAll o revs π st acc).2.2.countP Event.isPrint) = 0 := by
  intro π
  induction π with
  | nil => intro st acc; exact ⟨rfl, rfl⟩
  | cons j rest ih =>
    intro st acc
    cases hg : revs.get? j with
    | none =>
      simp only [runAll, hg]
      have hj : revs[j]?.isSome = false := by
        rw [← List.get?_eq_getElem?, hg]; rfl
      constructor
      · rw [(ih _ _).1]
        simp [List.countP_cons, hj]
      · exact (ih _ _).2
    | some rev =>
      simp only [runAll, hg]
      have hj : revs[j]?.isSome = true := by
        rw [← List.get?_eq_getElem?, hg]; rfl
      constructor
      · rw [List.countP_append, List.countP_append, (ih _ _).1]
        have hd := (determineSizeAt_trace_counts o rev st).1
        simp [hd, List.countP_cons, List.countP_nil, Event.isDone, hj]
        omega
      · rw [List.countP_append, List.countP_append, (ih _ _).2]
        have hp := (determineSizeAt_trace_counts o rev st).2
        simp [hp, List.countP_cons, List.countP_nil, Event.isPrint]

theorem dropWhile_append_prints {l1 l2 : List Event}
    (h1 : ∀ e ∈ l1, e.isPrint = false) (h2 : ∀ e ∈ l2, e.isPrint = true) :
    (((l1 ++ l2).dropWhile (fun e => !e.isPrint)).all Event.isPrint) = true := by
  induction l1 with
  | nil =>
    cases l2 with
    | nil => rfl
    | cons a t =>
      have ha := h2 a (List.mem_cons_self a t)
      simp only [List.nil_append, List.dropWhile, ha, Bool.not_true]
      rw [List.all_eq_true]
      exact h2
  | cons a t ih =>
    have ha := h1 a (List.mem_cons_self a t)
    simp only [List.cons_append, List.dropWhile, ha, Bool.not_false]
    exact ih (fun e he => h1 e (List.mem_cons_of_mem a he))

end BinarySize

namespace BinarySize

theorem printLoop_spec (u : Nat) :
    ∀ l : List (Except BuildErr Nat),
      (printLoop u l).1 =
        (l.takeWhile Except.isOk).map (fun r => reported (okValue r) u) ∧
      (printLoop u l).2 = firstError l := by
  intro l
  induction l with
  | nil => exact ⟨rfl, rfl⟩
  | cons a t ih =>
    cases a with
    | error e =>
      constructor
      · simp [printLoop, List.takeWhile, Except.isOk, Except.toBool]
      · simp [printLoop, firstError, List.dropWhile, Except.isOk, Except.toBool]
    | ok n =>
      constructor
      · simp [printLoop, List.takeWhile, Except.isOk, Except.toBool, okValue, ih.1]
      · rw [show (printLoop u (Except.ok n :: t)).2 = (printLoop u t).2 from rfl, ih.2]
        simp [firstError, List.dropWhile, Except.isOk, Except.toBool]

theorem mainCore_futures (o : Oracle) (revs : List String) (π : List Nat)
    (st : FsState) (hπ : π.Perm (List.range revs.length)) :
    ((List.range revs.length).map fun i =>
        ((runAll o revs π st (fun _ => none)).1 i).getD
          (Except.error (BuildErr.unresolvable "unfinished"))) =
      revs.map (measureRev o) := by
  have h0 := congrArg
    (List.map (fun x : Option (Except BuildErr Nat) =>
      x.getD (Except.error (BuildErr.unresolvable "unfinished"))))
    (futuresOf_eq o revs π st hπ)
  simpa [futuresOf, List.map_map, Function.comp] using h0

theorem mainCore_report (o : Oracle) (revs : List String) (u : Nat) (π : List Nat)
    (st : FsState) (hπ : π.Perm (List.range revs.length)) :
    (mainCore o revs u π st).lines =
      ((revs.map (measureRev o)).takeWhile Except.isOk).map
        (fun r => reported (okValue r) u) ∧
    (mainCore o revs u π st).err = firstError (revs.map (measureRev o)) := by
  have hl := mainCore_futures o revs π st hπ
  constructor
  · show (printLoop u _).1 = _
    rw [hl]
    exact (printLoop_spec u _).1
  · show (printLoop u _).2 = _
    rw [hl]
    exact (printLoop_spec u _).2

/-- C1: for every list of requested revisions and every completion-order
permutation of the worker pool, once the executor has waited for all
tasks the futures hold, in submission order, exactly one outcome per
revision, and slot i is the measurement of request i; the trace carries
one completion event per task and every print event comes after the first
print, which follows all task events. -/
theorem main_results_ordered (o : Oracle) (revs : List String) (u : Nat) (π : List Nat)
    (st : FsState) (hπ : π.Perm (List.range revs.length)) :
    futuresOf o revs π st = revs.map (fun r => some (measureRev o r)) ∧
    (futuresOf o revs π st).length = revs.length ∧
    ((mainCore o revs u π st).trace.countP Event.isDone) = revs.length ∧
    (((mainCore o revs u π st).trace.dropWhile (fun e => !e.isPrint)).all Event.isPrint)
      = true := by
  refine ⟨futuresOf_eq o revs π st hπ, by simp [futuresOf], ?_, ?_⟩
  · show (((runAll o revs π st (fun _ => none)).2.2 ++ _).countP Event.isDone) = _
    rw [List.countP_append, (runAll_trace_counts o revs π st (fun _ => none)).1]
    have h2 : (π.countP fun i => (revs.get? i).isSome) = revs.length := by
      rw [hπ.countP_eq]
      rw [List.countP_eq_length.mpr, List.length_range]
      intro a ha
      have hlt : a < revs.length := List.mem_range.mp ha
      simp [List.get?_eq_getElem?, List.getElem?_eq_getElem hlt]
    have h3 : ∀ l : List Int, ((l.map Event.printLine).countP Event.isDone) = 0 := by
      intro l
      rw [List.countP_map]
      apply List.countP_eq_zero.mpr
      intro a _
      simp [Function.comp, Event.isDone]
    rw [h2, h3]
    omega
  · apply dropWhile_append_prints
    · intro e he
      have h0 := (runAll_trace_counts o revs π st (fun _ => none)).2
      have := List.countP_eq_zero.mp h0 e he
      simpa using this
    · intro e he
      rcases List.mem_map.mp he with ⟨v, _, hv⟩
      rw [← hv]
      rfl

theorem main_results_ordered_witness :
    futuresOf sampleOracle ["HEAD", "HEAD"] [1, 0] ⟨0, []⟩ =
      ["HEAD", "HEAD"].map (fun r => some (measureRev sampleOracle r)) ∧
    (futuresOf sampleOracle ["HEAD", "HEAD"] [1, 0] ⟨0, []⟩).length = 2 ∧
    ((mainCore sampleOracle ["HEAD", "HEAD"] 1 [1, 0] ⟨0, []⟩).trace.countP Event.isDone) = 2 ∧
    (((mainCore sampleOracle ["HEAD", "HEAD"] 1 [1, 0] ⟨0, []⟩).trace.dropWhile
        (fun e => !e.isPrint)).all Event.isPrint) = true :=
  main_results_ordered sampleOracle ["HEAD", "HEAD"] 1 [1, 0] ⟨0, []⟩ (by decide)

/-- C2 counterexample: with requests bad and good where only good
resolves to a commit, the futures hold a complete order-preserving
outcome pair (the sibling good measured 2048 bytes), yet the printed
result sequence is empty — the reporting loop re-raises the first failed
future instead of emitting a failed slot, so the claimed complete
two-entry reported sequence does not exist. -/
theorem main_failure_output_truncated :
    (mainCore failOracle ["bad", "good"] 1 [0, 1] ⟨0, []⟩).lines = [] ∧
    (mainCore failOracle ["bad", "good"] 1 [0, 1] ⟨0, []⟩).lines.length ≠ 2 ∧
    (mainCore failOracle ["bad", "good"] 1 [0, 1] ⟨0, []⟩).err =
      some (BuildErr.unresolvable "fatal: needed a single revision") ∧
    futuresOf failOracle ["bad", "good"] [0, 1] ⟨0, []⟩ =
      [some (Except.error (BuildErr.unresolvable "fatal: needed a single revision")),
       some (Except.ok 2048)] := by
  refine ⟨by decide, by decide, by decide, by decide⟩

/-- C2 amended: a per-revision failure is local to its task — after the
executor waits, every future slot still holds exactly the measurement of
its own revision, in request order, failures carried as error values —
but the reported output is not complete: the loop prints the successful
measurements preceding the first failed slot and then propagates that
slot's error, omitting the failed revision and every later one from the
printed sequence. -/
theorem main_failure_isolated (o : Oracle) (revs : List String) (u : Nat) (π : List Nat)
    (st : FsState) (hπ : π.Perm (List.range revs.length)) :
    futuresOf o revs π st = revs.map (fun r => some (measureRev o r)) ∧
    (mainCore o revs u π st).lines =
      ((revs.map (measureRev o)).takeWhile Except.isOk).map
        (fun r => reported (okValue r) u) ∧
    (mainCore o revs u π st).err = firstError (revs.map (measureRev o)) :=
  ⟨futuresOf_eq o revs π st hπ, (mainCore_report o revs u π st hπ).1,
   (mainCore_report o revs u π st hπ).2⟩

theorem main_failure_isolated_witness :
    futuresOf failOracle ["bad", "good"] [1, 0] ⟨0, []⟩ =
      ["bad", "good"].map (fun r => some (measureRev failOracle r)) ∧
    (mainCore failOracle ["bad", "good"] 1 [1, 0] ⟨0, []⟩).lines =
      ((["bad", "good"].map (measureRev failOracle)).takeWhile Except.isOk).map
        (fun r => reported (okValue r) 1) ∧
    (mainCore failOracle ["bad", "good"] 1 [1, 0] ⟨0, []⟩).err =
      firstError (["bad", "good"].map (measureRev failOracle)) :=
  main_failure_isolated failOracle ["bad", "good"] 1 [1, 0] ⟨0, []⟩ (by decide)

end BinarySize
